import Mathlib

/-!
Verification of the settings-resolution core of `fprime.fbuild.settings`
(`IniSettings`): upward framework discovery, safe path reading with
normalization and existence validation, the `load` pipeline assembling the
resolved configuration mapping, and the `[environment]` section loader.

Modelling conventions:
* An absolute filesystem path is a list of components (`FsPath`); the
  filesystem root is `[]`.  `Path.parent` / `os.path.dirname` is `dropLast`.
* The filesystem is a structure of predicates (`pathExists`, `isFile`) plus
  an oracle `iniEntries` giving, for each file path, the `(section, key,
  value)` triples its INI text parses to (in file order).  `configparser`
  stores root-section option keys case-folded via the default `optionxform`
  (`pyLower` here); the environment loader overrides `optionxform`
  with the identity, so its keys are preserved verbatim.
* `IniSettings.load` is modelled on an already-resolved settings-file path
  (the Python code calls `.resolve()` on its argument first; the
  cwd-relative defaulting of a `None` argument is outside the model).  The
  returned Python dict is modelled as an association list in insertion
  order, paired with the list of warning lines printed.
* Raised exceptions become the `Except` error branch.
-/

namespace FprimeSettings

/-- An absolute filesystem path as its list of components; `[]` is the root. -/
abbrev FsPath := List String

/-- The filesystem state consulted by the settings loader: existence of a
path, whether a path is a regular file, and the parsed INI content of the
file at a path (`configparser.read` of a missing file yields no entries). -/
structure FileSystem where
  pathExists : FsPath → Bool
  isFile : FsPath → Bool
  iniEntries : FsPath → List (String × String × String)

/-- The exceptions raised by the settings module: `FprimeSettingsException`
(a declared path does not exist; carries the offending raw path, the
section, the option key and the settings file) and
`FprimeLocationUnknownException` (upward discovery reached the root). -/
inductive FprimeException where
  | settingsException (path sect key : String) (iniFile : FsPath)
  | locationUnknown
deriving DecidableEq, Repr

/-- Render an `FsPath` the way Python prints an absolute path. -/
def renderPath (p : FsPath) : String :=
  "/" ++ String.intercalate "/" p

/-- The message text of each exception, as built by the Python `raise`
statements (an f-string naming the path, section, option and file). -/
def exceptionMessage : FprimeException → String
  | .settingsException p s k f =>
      "Nonexistent path '" ++ p ++ "' found in section '" ++ s ++
        "' option '" ++ k ++ "' of file '" ++ renderPath f ++ "'"
  | .locationUnknown =>
      "Please set 'framework_path' in [fprime] section in 'settings.ini"

/-- ASCII lower-casing of one character (Python's `str.lower` restricted to
the ASCII range relevant to INI keys). -/
def lowerChar (c : Char) : Char :=
  if 65 ≤ c.toNat ∧ c.toNat ≤ 90 then Char.ofNat (c.toNat + 32) else c

/-- Python's `str.lower`, the default `configparser.optionxform`. -/
def pyLower (s : String) : String := ⟨s.data.map lowerChar⟩

/-- Python's `str.split(sep)` for a one-character separator: splitting the
empty string yields `[""]`, and consecutive separators yield empty
segments, exactly as in Python. -/
def splitSep (sep : Char) (s : String) : List String :=
  (s.data.splitOn sep).map (fun l => ⟨l⟩)

/-- Whether a raw path string is absolute (`os.path.join` discards the base
for a path starting with `/`). -/
def isAbsolute (s : String) : Bool :=
  match s.data with
  | '/' :: _ => true
  | _ => false

/-- `configparser` option lookup: find the first entry of the given section
whose stored key (transformed by `optionxform`) matches the transformed
query key.  Section names are compared verbatim (configparser sections are
case-sensitive). -/
def iniGet (xform : String → String) (ini : List (String × String × String))
    (sect key : String) : Option String :=
  (ini.find? (fun e => e.1 == sect && xform e.2.1 == xform key)).map
    (fun e => e.2.2)

/-- `parser.get sect key (fallback := d)` with the default case-folding
`optionxform`: root-section keys are matched case-insensitively. -/
def iniGetD (ini : List (String × String × String)) (sect key d : String) :
    String :=
  (iniGet pyLower ini sect key).getD d

/-- Splitting a raw path string on `/` into components. -/
def splitPath (s : String) : List String := splitSep '/' s

/-- One step of Python's lexical `os.path.normpath` on an absolute path,
expressed on component lists: empty components and `.` are dropped, `..`
removes the previous component (and is a no-op at the root, as for
`normpath` on an absolute path), and ordinary components are appended. -/
def normComponents (acc : FsPath) : List String → FsPath
  | [] => acc
  | c :: rest =>
      if c = "" ∨ c = "." then normComponents acc rest
      else if c = ".." then normComponents acc.dropLast rest
      else normComponents (acc ++ [c]) rest

/-- `os.path.abspath (os.path.normpath (os.path.join base_dir path))` for an
absolute `base_dir`: a raw path starting with `/` discards the base
(`os.path.join` semantics), otherwise it is appended to the base; the result
is then lexically normalized.  No filesystem state is consulted: this is the
exact normalization `read_safe_path` applies, and it is purely lexical. -/
def expandPath (base : FsPath) (raw : String) : FsPath :=
  if isAbsolute raw then normComponents [] (splitPath raw)
  else normComponents [] (base ++ splitPath raw)

/-- The nonempty entries of a colon-separated path-list value, in order
(the `read_safe_path` loop skips empty segments). -/
def pathEntries (v : String) : List String :=
  (splitSep ':' v).filter (fun p => p ≠ "")

namespace IniSettings

/-- The fixed marker `cmake/FPrime.cmake` checked by `find_fprime`. -/
def needle : FsPath := ["cmake", "FPrime.cmake"]

/-- The loop of `IniSettings.find_fprime`, with an explicit step bound:
while the candidate is not the root (`path != path.parent`), return it if
the marker file exists under it, otherwise move to the parent; at the root,
raise `FprimeLocationUnknownException`.  Each iteration shortens the path by
one component, so `p.length` steps always suffice. -/
def find_fprime_go (fs : FileSystem) : Nat → FsPath → Except FprimeException FsPath
  | 0, _ => .error .locationUnknown
  | Nat.succ n, p =>
      if p = [] then .error .locationUnknown
      else if fs.isFile (p ++ needle) then .ok p
      else find_fprime_go fs n p.dropLast

/-- `IniSettings.find_fprime` on an already-resolved starting directory. -/
def find_fprime (fs : FileSystem) (cwd : FsPath) :
    Except FprimeException FsPath :=
  find_fprime_go fs cwd.length cwd

/-- The chain of candidate directories `find_fprime` walks, from the start
directory up to (but excluding) the root. -/
def ancestorChain_go : Nat → FsPath → List FsPath
  | 0, _ => []
  | Nat.succ n, p => if p = [] then [] else p :: ancestorChain_go n p.dropLast

/-- The candidate directories of the upward walk from `p`. -/
def ancestorChain (p : FsPath) : List FsPath :=
  ancestorChain_go p.length p

theorem find_fprime_go_eq (fs : FileSystem) :
    ∀ (n : Nat) (p : FsPath), p.length ≤ n →
      find_fprime_go fs n p = find_fprime fs p := by
  intro n
  induction n with
  | zero =>
      intro p hp
      have : p = [] := List.length_eq_zero.mp (Nat.le_zero.mp hp)
      subst this
      rfl
  | succ n ih =>
      intro p hp
      by_cases h0 : p = []
      · subst h0; rfl
      · obtain ⟨m, hm⟩ : ∃ m, p.length = m + 1 := by
          have := List.length_pos.mpr h0
          exact ⟨p.length - 1, by omega⟩
        rw [find_fprime, hm]
        rw [find_fprime_go, find_fprime_go, if_neg h0, if_neg h0]
        by_cases hmark : fs.isFile (p ++ needle) = true
        · rw [if_pos hmark, if_pos hmark]
        · rw [if_neg hmark, if_neg hmark]
          have hlen : p.dropLast.length = m := by
            rw [List.length_dropLast, hm]; omega
          rw [ih p.dropLast (by omega), find_fprime, hlen]

theorem find_fprime_nil (fs : FileSystem) :
    find_fprime fs [] = .error .locationUnknown := rfl

theorem find_fprime_cons (fs : FileSystem) (p : FsPath) (h : p ≠ []) :
    find_fprime fs p =
      if fs.isFile (p ++ needle) then .ok p
      else find_fprime fs p.dropLast := by
  obtain ⟨m, hm⟩ : ∃ m, p.length = m + 1 := by
    have := List.length_pos.mpr h
    exact ⟨p.length - 1, by omega⟩
  rw [find_fprime, hm, find_fprime_go, if_neg h]
  by_cases hmark : fs.isFile (p ++ needle) = true
  · rw [if_pos hmark, if_pos hmark]
  · rw [if_neg hmark, if_neg hmark]
    exact find_fprime_go_eq fs m p.dropLast
      (by rw [List.length_dropLast, hm]; omega)

theorem ancestorChain_go_eq :
    ∀ (n : Nat) (p : FsPath), p.length ≤ n →
      ancestorChain_go n p = ancestorChain p := by
  intro n
  induction n with
  | zero =>
      intro p hp
      have : p = [] := List.length_eq_zero.mp (Nat.le_zero.mp hp)
      subst this
      rfl
  | succ n ih =>
      intro p hp
      by_cases h0 : p = []
      · subst h0; rfl
      · obtain ⟨m, hm⟩ : ∃ m, p.length = m + 1 := by
          have := List.length_pos.mpr h0
          exact ⟨p.length - 1, by omega⟩
        rw [ancestorChain, hm]
        rw [ancestorChain_go, ancestorChain_go, if_neg h0, if_neg h0]
        have hlen : p.dropLast.length = m := by
          rw [List.length_dropLast, hm]; omega
        rw [ih p.dropLast (by omega), ancestorChain, hlen]

/-- The loop body of `IniSettings.read_safe_path` over the already-split
list of raw path strings: skip empty entries; normalize each remaining
entry against the settings-file directory; when existence checking is on,
raise `FprimeSettingsException` at the first nonexistent target; collect
the normalized paths in order. -/
def expandAll (fs : FileSystem) (base : FsPath) (sect key : String)
    (ini_file : FsPath) (mustExist : Bool) :
    List String → Except FprimeException (List FsPath)
  | [] => .ok []
  | p :: rest =>
      if p = "" then expandAll fs base sect key ini_file mustExist rest
      else
        let full_path := expandPath base p
        if mustExist && !fs.pathExists full_path then
          .error (.settingsException p sect key ini_file)
        else do
          let r ← expandAll fs base sect key ini_file mustExist rest
          .ok (full_path :: r)

/-- `IniSettings.read_safe_path`: read the option `key` of section `sect`
(falling back to `""`), split on `:`, and expand/validate every entry. -/
def read_safe_path (fs : FileSystem) (ini : List (String × String × String))
    (sect key : String) (ini_file : FsPath) (mustExist : Bool := true) :
    Except FprimeException (List FsPath) :=
  let base_dir := ini_file.dropLast
  let all_paths := splitSep ':' (iniGetD ini sect key "")
  expandAll fs base_dir sect key ini_file mustExist all_paths

/-- `IniSettings.load_environment`: parse the environment file with
`optionxform = str` (keys preserved verbatim) and collect the key/value
pairs of its `[environment]` section; a missing section (or file) yields
the empty mapping. -/
def load_environment (fs : FileSystem) (env_file : FsPath) :
    List (String × String) :=
  ((fs.iniEntries env_file).filter (fun e => e.1 = "environment")).map
    (fun e => (e.2.1, e.2.2))

/-- A value of the resolved-configuration dict. -/
inductive SettingsValue where
  | path (p : FsPath)
  | str (s : String)
  | paths (ps : List FsPath)
  | env (e : List (String × String))
deriving DecidableEq, Repr

/-- The conditional expression `fprime_location[0] if fprime_location else
IniSettings.find_fprime(...)`: the first entry when the list is nonempty,
otherwise the given alternative. -/
def firstOr (l : List FsPath) (alt : Except FprimeException FsPath) :
    Except FprimeException FsPath :=
  match l with
  | p :: _ => Except.ok p
  | [] => alt

/-- The warning line printed when the settings file is missing. -/
def warnMsg (settings_file : FsPath) : String :=
  "[WARNING] Failed to find settings file: " ++ renderPath settings_file

/-- The dict-assembly tail of `IniSettings.load`: the nine always-present
keys in insertion order, then `project_root`, `ac_constants` and
`config_dir` appended only when read from the file. -/
def assembleSettings (settings_file fprime_location : FsPath)
    (libraries : List FsPath) (default_toolchain default_ut_toolchain : String)
    (install_dest env_file : FsPath) (environment : List (String × String))
    (component_cookiecutter : String)
    (proj_root ac_consts config_dir : Option FsPath) :
    List (String × SettingsValue) :=
  let settings : List (String × SettingsValue) :=
    [("settings_file", .path settings_file),
     ("framework_path", .path fprime_location),
     ("library_locations", .paths libraries),
     ("default_toolchain", .str default_toolchain),
     ("default_ut_toolchain", .str default_ut_toolchain),
     ("install_dest", .path install_dest),
     ("environment_file", .path env_file),
     ("environment", .env environment),
     ("component_cookiecutter", .str component_cookiecutter)]
  let settings := match proj_root with
    | some p => settings ++ [("project_root", .path p)]
    | none => settings
  let settings := match ac_consts with
    | some p => settings ++ [("ac_constants", .path p)]
    | none => settings
  match config_dir with
  | some p => settings ++ [("config_dir", .path p)]
  | none => settings

/-- `IniSettings.load` on the already-resolved settings-file path.  Returns
the warning lines printed together with the resulting mapping, or the
raised exception.  Mirrors the source line by line: missing-file
short-circuit, then the sequence of `read_safe_path` calls
(`framework_path`, `project_root`, `ac_constants`, `config_directory`,
`install_dest` without existence check, `environment_file`,
`library_locations`), the environment load, and dict assembly. -/
def load (fs : FileSystem) (settings_file : FsPath) :
    Except FprimeException (List String × List (String × SettingsValue)) :=
  let dfl_install_dest := settings_file.dropLast ++ ["build-artifacts"]
  if !fs.pathExists settings_file then do
    let fprime_location ← find_fprime fs settings_file.dropLast
    .ok ([warnMsg settings_file],
         [("framework_path", .path fprime_location),
          ("install_dest", .path dfl_install_dest)])
  else do
    let ini := fs.iniEntries settings_file
    let fpl ← read_safe_path fs ini "fprime" "framework_path" settings_file
    let flocE := firstOr fpl (find_fprime fs settings_file.dropLast)
    let fprime_location ← flocE
    let prl ← read_safe_path fs ini "fprime" "project_root" settings_file
    let proj_root := prl.head?
    let acl ← read_safe_path fs ini "fprime" "ac_constants" settings_file
    let ac_consts := acl.head?
    let cdl ← read_safe_path fs ini "fprime" "config_directory" settings_file
    let config_dir := cdl.head?
    let idl ← read_safe_path fs ini "fprime" "install_dest" settings_file false
    let install_dest := idl.head?.getD dfl_install_dest
    let efl ← read_safe_path fs ini "fprime" "environment_file" settings_file
    let env_file := efl.head?.getD settings_file
    let libraries ← read_safe_path fs ini "fprime" "library_locations"
      settings_file
    let environment := load_environment fs env_file
    .ok ([],
      assembleSettings settings_file fprime_location libraries
        (iniGetD ini "fprime" "default_toolchain" "native")
        (iniGetD ini "fprime" "default_ut_toolchain" "native")
        install_dest env_file environment
        (iniGetD ini "fprime" "component_cookiecutter" "default")
        proj_root ac_consts config_dir)

end IniSettings

/-- Dict lookup on the modelled result mapping. -/
def lookupVal (m : List (String × IniSettings.SettingsValue)) (k : String) :
    Option IniSettings.SettingsValue :=
  (m.find? (fun e => e.1 == k)).map (fun e => e.2)

namespace IniSettings

@[simp] theorem ok_bind {α β ε : Type} (a : α) (g : α → Except ε β) :
    (Except.ok a >>= g) = g a := rfl

@[simp] theorem error_bind {α β ε : Type} (e : ε) (g : α → Except ε β) :
    ((Except.error e : Except ε α) >>= g) = .error e := rfl

theorem expandAll_ok_of_all_exist (fs : FileSystem) (base : FsPath)
    (sect key : String) (f : FsPath) (l : List String)
    (hall : ∀ p ∈ l, p ≠ "" → fs.pathExists (expandPath base p)) :
    expandAll fs base sect key f true l =
      .ok ((l.filter (fun p => p ≠ "")).map (expandPath base)) := by
  induction l with
  | nil => rfl
  | cons p rest ih =>
      have hrest : ∀ q ∈ rest, q ≠ "" → fs.pathExists (expandPath base q) :=
        fun q hq => hall q (List.mem_cons_of_mem _ hq)
      by_cases hp : p = ""
      · simp [expandAll, hp, ih hrest]
      · have hex := hall p (List.mem_cons_self _ _) hp
        simp [expandAll, hp, hex, ih hrest]

theorem expandAll_noCheck_ok (fs : FileSystem) (base : FsPath)
    (sect key : String) (f : FsPath) (l : List String) :
    expandAll fs base sect key f false l =
      .ok ((l.filter (fun p => p ≠ "")).map (expandPath base)) := by
  induction l with
  | nil => rfl
  | cons p rest ih =>
      by_cases hp : p = ""
      · simp [expandAll, hp, ih]
      · simp [expandAll, hp, ih]

theorem expandAll_ok_inv (fs : FileSystem) (base : FsPath)
    (sect key : String) (f : FsPath) (l : List String)
    (r : List FsPath)
    (h : expandAll fs base sect key f true l = .ok r) :
    (∀ p ∈ l, p ≠ "" → fs.pathExists (expandPath base p)) ∧
      r = (l.filter (fun p => p ≠ "")).map (expandPath base) := by
  induction l generalizing r with
  | nil =>
      simp [expandAll] at h
      simp [h]
  | cons p rest ih =>
      by_cases hp : p = ""
      · rw [expandAll, if_pos hp] at h
        obtain ⟨h1, h2⟩ := ih r h
        refine ⟨?_, ?_⟩
        · intro q hq hq0
          rcases List.mem_cons.mp hq with rfl | hq'
          · exact absurd hp hq0
          · exact h1 q hq' hq0
        · simp [hp, h2]
      · rw [expandAll, if_neg hp] at h
        by_cases hex : fs.pathExists (expandPath base p)
        · rw [if_neg (by simp [hex])] at h
          cases hrec : expandAll fs base sect key f true rest with
          | error e => rw [hrec] at h; simp at h
          | ok rr =>
              rw [hrec] at h
              simp only [ok_bind, Except.ok.injEq] at h
              obtain ⟨h1, h2⟩ := ih rr hrec
              refine ⟨?_, ?_⟩
              · intro q hq hq0
                rcases List.mem_cons.mp hq with rfl | hq'
                · exact hex
                · exact h1 q hq' hq0
              · simp [hp, ← h, h2]
        · rw [if_pos (by simp [hex])] at h
          cases h

theorem expandAll_error_inv (fs : FileSystem) (base : FsPath)
    (sect key : String) (f : FsPath) (l : List String)
    (e : FprimeException)
    (h : expandAll fs base sect key f true l = .error e) :
    ∃ p ∈ l, p ≠ "" ∧ ¬fs.pathExists (expandPath base p) ∧
      e = .settingsException p sect key f := by
  induction l with
  | nil => simp [expandAll] at h
  | cons p rest ih =>
      by_cases hp : p = ""
      · rw [expandAll, if_pos hp] at h
        obtain ⟨q, hq, h1, h2, h3⟩ := ih h
        exact ⟨q, List.mem_cons_of_mem _ hq, h1, h2, h3⟩
      · rw [expandAll, if_neg hp] at h
        by_cases hex : fs.pathExists (expandPath base p)
        · rw [if_neg (by simp [hex])] at h
          cases hrec : expandAll fs base sect key f true rest with
          | error e' =>
              rw [hrec] at h
              simp only [error_bind, Except.error.injEq] at h
              cases h
              obtain ⟨q, hq, h1, h2, h3⟩ := ih hrec
              exact ⟨q, List.mem_cons_of_mem _ hq, h1, h2, h3⟩
          | ok rr =>
              rw [hrec] at h
              simp at h
        · rw [if_pos (by simp [hex])] at h
          cases h
          exact ⟨p, List.mem_cons_self _ _, hp, hex, rfl⟩

theorem expandAll_error_of_bad (fs : FileSystem) (base : FsPath)
    (sect key : String) (f : FsPath) (l : List String)
    (p : String) (hp : p ∈ l) (hp0 : p ≠ "")
    (hbad : ¬fs.pathExists (expandPath base p)) :
    ∃ q, q ∈ l ∧ q ≠ "" ∧ ¬fs.pathExists (expandPath base q) ∧
      expandAll fs base sect key f true l =
        .error (.settingsException q sect key f) := by
  cases hres : expandAll fs base sect key f true l with
  | ok r =>
      obtain ⟨h1, _⟩ := expandAll_ok_inv fs base sect key f l r hres
      exact absurd (h1 p hp hp0) hbad
  | error e =>
      obtain ⟨q, hq, h1, h2, h3⟩ := expandAll_error_inv fs base sect key f l e hres
      exact ⟨q, hq, h1, h2, by rw [h3]⟩

/-- `read_safe_path` with existence checking succeeds exactly on the
normalized nonempty entries when each exists. -/
theorem read_safe_path_ok_iff (fs : FileSystem)
    (ini : List (String × String × String)) (sect key : String) (f : FsPath)
    (r : List FsPath) :
    read_safe_path fs ini sect key f true = .ok r ↔
      ((∀ p ∈ pathEntries (iniGetD ini sect key ""),
          fs.pathExists (expandPath f.dropLast p)) ∧
        r = (pathEntries (iniGetD ini sect key "")).map
          (expandPath f.dropLast)) := by
  constructor
  · intro h
    obtain ⟨h1, h2⟩ := expandAll_ok_inv fs f.dropLast sect key f _ r h
    refine ⟨?_, ?_⟩
    · intro p hp
      have := List.mem_filter.mp hp
      exact h1 p this.1 (by simpa using this.2)
    · simpa [pathEntries] using h2
  · rintro ⟨h1, rfl⟩
    have := expandAll_ok_of_all_exist fs f.dropLast sect key f
      (splitSep ':' (iniGetD ini sect key ""))
      (fun p hp hp0 => h1 p (List.mem_filter.mpr ⟨hp, by simpa using hp0⟩))
    simpa [read_safe_path, pathEntries] using this

theorem read_safe_path_noCheck (fs : FileSystem)
    (ini : List (String × String × String)) (sect key : String)
    (f : FsPath) :
    read_safe_path fs ini sect key f false =
      .ok ((pathEntries (iniGetD ini sect key "")).map
        (expandPath f.dropLast)) := by
  simpa [read_safe_path, pathEntries] using
    expandAll_noCheck_ok fs f.dropLast sect key f
      (splitSep ':' (iniGetD ini sect key ""))

theorem read_safe_path_error_inv (fs : FileSystem)
    (ini : List (String × String × String)) (sect key : String) (f : FsPath)
    (e : FprimeException)
    (h : read_safe_path fs ini sect key f true = .error e) :
    ∃ p ∈ pathEntries (iniGetD ini sect key ""),
      ¬fs.pathExists (expandPath f.dropLast p) ∧
        e = .settingsException p sect key f := by
  obtain ⟨p, hp, h1, h2, h3⟩ := expandAll_error_inv fs f.dropLast sect key f _ e h
  exact ⟨p, List.mem_filter.mpr ⟨hp, by simpa using h1⟩, h2, h3⟩

theorem read_safe_path_error_of_bad (fs : FileSystem)
    (ini : List (String × String × String)) (sect key : String) (f : FsPath)
    (p : String) (hp : p ∈ pathEntries (iniGetD ini sect key ""))
    (hbad : ¬fs.pathExists (expandPath f.dropLast p)) :
    ∃ q ∈ pathEntries (iniGetD ini sect key ""),
      ¬fs.pathExists (expandPath f.dropLast q) ∧
        read_safe_path fs ini sect key f true =
          .error (.settingsException q sect key f) := by
  have hmem := List.mem_filter.mp hp
  obtain ⟨q, hq, h1, h2, h3⟩ := expandAll_error_of_bad fs f.dropLast sect key f
    (splitSep ':' (iniGetD ini sect key "")) p hmem.1 (by simpa using hmem.2) hbad
  exact ⟨q, List.mem_filter.mpr ⟨hq, by simpa using h1⟩, h2, h3⟩

/-- When the option is absent from the parsed INI, `read_safe_path` yields
the empty list (the fallback `""` splits to a single empty segment, which
the loop skips). -/
theorem read_safe_path_absent (fs : FileSystem)
    (ini : List (String × String × String)) (sect key : String) (f : FsPath)
    (b : Bool) (habs : iniGet pyLower ini sect key = none) :
    read_safe_path fs ini sect key f b = .ok [] := by
  have hsplit : splitSep ':' "" = [""] := rfl
  simp [read_safe_path, iniGetD, habs, hsplit, expandAll]

/-- The `[fprime]` option keys whose targets `load` validates to exist
(every key it reads through `read_safe_path` with the existence check on). -/
def checkedKeys : List String :=
  ["framework_path", "project_root", "ac_constants", "config_directory",
   "environment_file", "library_locations"]

/-- Unfolding `load` on an existing settings file, given the outcome of each
`read_safe_path` call and of the framework-location step. -/
theorem load_ok_build (fs : FileSystem) (sf : FsPath)
    (hex : fs.pathExists sf = true)
    (lfp lpr lac lcd lid lef llib : List FsPath) (floc : FsPath)
    (hfp : read_safe_path fs (fs.iniEntries sf) "fprime" "framework_path" sf
      = .ok lfp)
    (hfloc : firstOr lfp (find_fprime fs sf.dropLast) = Except.ok floc)
    (hpr : read_safe_path fs (fs.iniEntries sf) "fprime" "project_root" sf
      = .ok lpr)
    (hac : read_safe_path fs (fs.iniEntries sf) "fprime" "ac_constants" sf
      = .ok lac)
    (hcd : read_safe_path fs (fs.iniEntries sf) "fprime" "config_directory" sf
      = .ok lcd)
    (hid : read_safe_path fs (fs.iniEntries sf) "fprime" "install_dest" sf
      false = .ok lid)
    (hef : read_safe_path fs (fs.iniEntries sf) "fprime" "environment_file" sf
      = .ok lef)
    (hlib : read_safe_path fs (fs.iniEntries sf) "fprime" "library_locations"
      sf = .ok llib) :
    load fs sf = .ok ([],
      assembleSettings sf floc llib
        (iniGetD (fs.iniEntries sf) "fprime" "default_toolchain" "native")
        (iniGetD (fs.iniEntries sf) "fprime" "default_ut_toolchain" "native")
        (lid.head?.getD (sf.dropLast ++ ["build-artifacts"]))
        (lef.head?.getD sf)
        (load_environment fs (lef.head?.getD sf))
        (iniGetD (fs.iniEntries sf) "fprime" "component_cookiecutter"
          "default")
        lpr.head? lac.head? lcd.head?) := by
  rw [load]
  rw [hex]
  simp only [Bool.not_true, Bool.false_eq_true, if_false]
  rw [hfp]
  simp only [ok_bind]
  rw [hfloc]
  simp only [ok_bind]
  rw [hpr]
  simp only [ok_bind]
  rw [hac]
  simp only [ok_bind]
  rw [hcd]
  simp only [ok_bind]
  rw [hid]
  simp only [ok_bind]
  rw [hef]
  simp only [ok_bind]
  rw [hlib]
  simp only [ok_bind]

/-- If any existence-checked `[fprime]` option of an existing settings file
declares a nonexistent target, `load` raises a `FprimeSettingsException`
carrying the section `fprime`, a genuinely offending option key and the
settings file (provided upward discovery would succeed, so that a missing
`framework_path` does not abort earlier for a different reason). -/
theorem load_error_of_bad_entry (fs : FileSystem) (sf : FsPath)
    (hex : fs.pathExists sf = true)
    (hfw : ∃ r, find_fprime fs sf.dropLast = .ok r)
    (k : String) (hk : k ∈ checkedKeys) (p : String)
    (hp : p ∈ pathEntries (iniGetD (fs.iniEntries sf) "fprime" k ""))
    (hbad : ¬fs.pathExists (expandPath sf.dropLast p)) :
    ∃ q k', k' ∈ checkedKeys ∧
      q ∈ pathEntries (iniGetD (fs.iniEntries sf) "fprime" k' "") ∧
      ¬fs.pathExists (expandPath sf.dropLast q) ∧
      load fs sf = .error (.settingsException q "fprime" k' sf) := by
  obtain ⟨r, hr⟩ := hfw
  have hload : ∀ e, read_safe_path fs (fs.iniEntries sf) "fprime"
      "framework_path" sf = .error e → load fs sf = .error e := by
    intro e he
    rw [load, hex]
    simp only [Bool.not_true, Bool.false_eq_true, if_false]
    rw [he]
    simp only [error_bind]
  have hmk : ∀ (k' : String), k' ∈ checkedKeys →
      ∀ e, read_safe_path fs (fs.iniEntries sf) "fprime" k' sf = .error e →
      load fs sf = .error e →
      ∃ q k'', k'' ∈ checkedKeys ∧
        q ∈ pathEntries (iniGetD (fs.iniEntries sf) "fprime" k'' "") ∧
        ¬fs.pathExists (expandPath sf.dropLast q) ∧
        load fs sf = .error (.settingsException q "fprime" k'' sf) := by
    intro k' hk' e he hl
    obtain ⟨q, hq, hqbad, rfl⟩ :=
      read_safe_path_error_inv fs (fs.iniEntries sf) "fprime" k' sf e he
    exact ⟨q, k', hk', hq, hqbad, hl⟩
  cases hfp : read_safe_path fs (fs.iniEntries sf) "fprime" "framework_path"
      sf with
  | error e =>
      exact hmk "framework_path" (by simp [checkedKeys]) e hfp (hload e hfp)
  | ok lfp =>
  have hfloc : firstOr lfp (find_fprime fs sf.dropLast)
      = Except.ok (lfp.headD r) := by
    cases lfp with
    | nil => simpa [firstOr] using hr
    | cons a t => rfl
  have hload2 : load fs sf =
      (read_safe_path fs (fs.iniEntries sf) "fprime" "project_root" sf >>=
        fun prl =>
      read_safe_path fs (fs.iniEntries sf) "fprime" "ac_constants" sf >>=
        fun acl =>
      read_safe_path fs (fs.iniEntries sf) "fprime" "config_directory" sf >>=
        fun cdl =>
      read_safe_path fs (fs.iniEntries sf) "fprime" "install_dest" sf false
        >>= fun idl =>
      read_safe_path fs (fs.iniEntries sf) "fprime" "environment_file" sf >>=
        fun efl =>
      read_safe_path fs (fs.iniEntries sf) "fprime" "library_locations" sf >>=
        fun libl =>
      Except.ok ([],
        assembleSettings sf (lfp.headD r) libl
          (iniGetD (fs.iniEntries sf) "fprime" "default_toolchain" "native")
          (iniGetD (fs.iniEntries sf) "fprime" "default_ut_toolchain"
            "native")
          (idl.head?.getD (sf.dropLast ++ ["build-artifacts"]))
          (efl.head?.getD sf)
          (load_environment fs (efl.head?.getD sf))
          (iniGetD (fs.iniEntries sf) "fprime" "component_cookiecutter"
            "default")
          prl.head? acl.head? cdl.head?)) := by
    rw [load, hex]
    simp only [Bool.not_true, Bool.false_eq_true, if_false]
    rw [hfp]
    simp only [ok_bind]
    rw [hfloc]
    simp only [ok_bind]
  cases hpr : read_safe_path fs (fs.iniEntries sf) "fprime" "project_root"
      sf with
  | error e =>
      rw [hpr] at hload2
      simp only [error_bind] at hload2
      exact hmk "project_root" (by simp [checkedKeys]) e hpr hload2
  | ok lpr =>
  rw [hpr] at hload2
  simp only [ok_bind] at hload2
  cases hac : read_safe_path fs (fs.iniEntries sf) "fprime" "ac_constants"
      sf with
  | error e =>
      rw [hac] at hload2
      simp only [error_bind] at hload2
      exact hmk "ac_constants" (by simp [checkedKeys]) e hac hload2
  | ok lac =>
  rw [hac] at hload2
  simp only [ok_bind] at hload2
  cases hcd : read_safe_path fs (fs.iniEntries sf) "fprime"
      "config_directory" sf with
  | error e =>
      rw [hcd] at hload2
      simp only [error_bind] at hload2
      exact hmk "config_directory" (by simp [checkedKeys]) e hcd hload2
  | ok lcd =>
  rw [hcd] at hload2
  simp only [ok_bind] at hload2
  rw [read_safe_path_noCheck] at hload2
  simp only [ok_bind] at hload2
  cases hef : read_safe_path fs (fs.iniEntries sf) "fprime"
      "environment_file" sf with
  | error e =>
      rw [hef] at hload2
      simp only [error_bind] at hload2
      exact hmk "environment_file" (by simp [checkedKeys]) e hef hload2
  | ok lef =>
  rw [hef] at hload2
  simp only [ok_bind] at hload2
  cases hlib : read_safe_path fs (fs.iniEntries sf) "fprime"
      "library_locations" sf with
  | error e =>
      rw [hlib] at hload2
      simp only [error_bind] at hload2
      exact hmk "library_locations" (by simp [checkedKeys]) e hlib hload2
  | ok llib =>
  exfalso
  simp only [checkedKeys, List.mem_cons, List.not_mem_nil, or_false] at hk
  rcases hk with rfl | rfl | rfl | rfl | rfl | rfl
  · exact hbad (((read_safe_path_ok_iff fs _ _ _ sf lfp).mp hfp).1 p hp)
  · exact hbad (((read_safe_path_ok_iff fs _ _ _ sf lpr).mp hpr).1 p hp)
  · exact hbad (((read_safe_path_ok_iff fs _ _ _ sf lac).mp hac).1 p hp)
  · exact hbad (((read_safe_path_ok_iff fs _ _ _ sf lcd).mp hcd).1 p hp)
  · exact hbad (((read_safe_path_ok_iff fs _ _ _ sf lef).mp hef).1 p hp)
  · exact hbad (((read_safe_path_ok_iff fs _ _ _ sf llib).mp hlib).1 p hp)

theorem ancestorChain_nil : ancestorChain [] = [] := rfl

theorem ancestorChain_cons (p : FsPath) (h : p ≠ []) :
    ancestorChain p = p :: ancestorChain p.dropLast := by
  obtain ⟨m, hm⟩ : ∃ m, p.length = m + 1 := by
    have := List.length_pos.mpr h
    exact ⟨p.length - 1, by omega⟩
  rw [ancestorChain, hm, ancestorChain_go, if_neg h]
  congr 1
  exact ancestorChain_go_eq m p.dropLast (by rw [List.length_dropLast, hm]; omega)

theorem length_le_of_mem_ancestorChain (p : FsPath) :
    ∀ q ∈ ancestorChain p, q.length ≤ p.length := by
  have H : ∀ n (p : FsPath), p.length ≤ n →
      ∀ q ∈ ancestorChain p, q.length ≤ p.length := by
    intro n
    induction n with
    | zero =>
        intro p hp q hq
        have : p = [] := List.length_eq_zero.mp (Nat.le_zero.mp hp)
        subst this
        rw [ancestorChain_nil] at hq
        cases hq
    | succ n ih =>
        intro p hp q hq
        by_cases h0 : p = []
        · subst h0; rw [ancestorChain_nil] at hq; cases hq
        · rw [ancestorChain_cons p h0] at hq
          rcases List.mem_cons.mp hq with rfl | hq'
          · exact le_rfl
          · have h1 : p.dropLast.length ≤ n := by
              rw [List.length_dropLast]; omega
            have := ih p.dropLast h1 q hq'
            rw [List.length_dropLast] at this
            omega
  exact H p.length p le_rfl

theorem take_of_mem_ancestorChain (p : FsPath) :
    ∀ q ∈ ancestorChain p, q = p.take q.length := by
  have H : ∀ n (p : FsPath), p.length ≤ n →
      ∀ q ∈ ancestorChain p, q = p.take q.length := by
    intro n
    induction n with
    | zero =>
        intro p hp q hq
        have : p = [] := List.length_eq_zero.mp (Nat.le_zero.mp hp)
        subst this
        rw [ancestorChain_nil] at hq
        cases hq
    | succ n ih =>
        intro p hp q hq
        by_cases h0 : p = []
        · subst h0; rw [ancestorChain_nil] at hq; cases hq
        · rw [ancestorChain_cons p h0] at hq
          rcases List.mem_cons.mp hq with rfl | hq'
          · simp
          · have h1 : p.dropLast.length ≤ n := by
              rw [List.length_dropLast]; omega
            have hqlen := length_le_of_mem_ancestorChain p.dropLast q hq'
            rw [List.length_dropLast] at hqlen
            have := ih p.dropLast h1 q hq'
            rw [List.dropLast_eq_take, List.take_take] at this
            rwa [Nat.min_eq_left (by omega)] at this
  exact H p.length p le_rfl

theorem ancestorChain_strictly_decreasing (p : FsPath) :
    List.Pairwise (fun a b : FsPath => b.length < a.length)
      (ancestorChain p) := by
  have H : ∀ n (p : FsPath), p.length ≤ n →
      List.Pairwise (fun a b : FsPath => b.length < a.length)
        (ancestorChain p) := by
    intro n
    induction n with
    | zero =>
        intro p hp
        have : p = [] := List.length_eq_zero.mp (Nat.le_zero.mp hp)
        subst this
        rw [ancestorChain_nil]
        exact List.Pairwise.nil
    | succ n ih =>
        intro p hp
        by_cases h0 : p = []
        · subst h0; rw [ancestorChain_nil]; exact List.Pairwise.nil
        · rw [ancestorChain_cons p h0]
          refine List.Pairwise.cons ?_ (ih p.dropLast ?_)
          · intro q hq
            have := length_le_of_mem_ancestorChain p.dropLast q hq
            rw [List.length_dropLast] at this
            have hpos : 0 < p.length := List.length_pos.mpr h0
            omega
          · rw [List.length_dropLast]; omega
  exact H p.length p le_rfl

theorem ancestorChain_length (p : FsPath) :
    (ancestorChain p).length = p.length := by
  have H : ∀ n (p : FsPath), p.length ≤ n →
      (ancestorChain p).length = p.length := by
    intro n
    induction n with
    | zero =>
        intro p hp
        have : p = [] := List.length_eq_zero.mp (Nat.le_zero.mp hp)
        subst this
        rw [ancestorChain_nil]
        rfl
    | succ n ih =>
        intro p hp
        by_cases h0 : p = []
        · subst h0; rw [ancestorChain_nil]; rfl
        · rw [ancestorChain_cons p h0]
          have h1 : p.dropLast.length ≤ n := by
            rw [List.length_dropLast]; omega
          have := ih p.dropLast h1
          rw [List.length_dropLast] at this
          have hpos : 0 < p.length := List.length_pos.mpr h0
          simp [this]
          omega
  exact H p.length p le_rfl

/-- `find_fprime` walks exactly the ancestor chain and returns the first
candidate under which the marker file exists; it raises
`FprimeLocationUnknownException` when no candidate has it. -/
theorem find_fprime_eq_chain (fs : FileSystem) (p : FsPath) :
    find_fprime fs p =
      match (ancestorChain p).find? (fun q => fs.isFile (q ++ needle)) with
      | some r => Except.ok r
      | none => Except.error FprimeException.locationUnknown := by
  have H : ∀ n (p : FsPath), p.length ≤ n →
      find_fprime fs p =
        match (ancestorChain p).find? (fun q => fs.isFile (q ++ needle)) with
        | some r => Except.ok r
        | none => Except.error FprimeException.locationUnknown := by
    intro n
    induction n with
    | zero =>
        intro p hp
        have : p = [] := List.length_eq_zero.mp (Nat.le_zero.mp hp)
        subst this
        rw [ancestorChain_nil, find_fprime_nil]
        rfl
    | succ n ih =>
        intro p hp
        by_cases h0 : p = []
        · subst h0
          rw [ancestorChain_nil, find_fprime_nil]
          rfl
        · rw [ancestorChain_cons p h0, find_fprime_cons fs p h0]
          by_cases hmark : fs.isFile (p ++ needle) = true
          · have hfind : List.find? (fun q => fs.isFile (q ++ needle))
                (p :: ancestorChain p.dropLast) = some p :=
              List.find?_cons_of_pos _ (by simpa using hmark)
            rw [if_pos hmark, hfind]
          · have hfind : List.find? (fun q => fs.isFile (q ++ needle))
                (p :: ancestorChain p.dropLast) =
                List.find? (fun q => fs.isFile (q ++ needle))
                  (ancestorChain p.dropLast) :=
              List.find?_cons_of_neg _ (by simpa using hmark)
            rw [if_neg hmark, hfind]
            exact ih p.dropLast (by rw [List.length_dropLast]; omega)
  exact H p.length p le_rfl

/-- `find_fprime` consults only the `isFile` component of the filesystem. -/
theorem find_fprime_congr (fs fs' : FileSystem)
    (hif : fs'.isFile = fs.isFile) (p : FsPath) :
    find_fprime fs' p = find_fprime fs p := by
  have H : ∀ n (p : FsPath), p.length ≤ n →
      find_fprime fs' p = find_fprime fs p := by
    intro n
    induction n with
    | zero =>
        intro p hp
        have : p = [] := List.length_eq_zero.mp (Nat.le_zero.mp hp)
        subst this
        rw [find_fprime_nil, find_fprime_nil]
    | succ n ih =>
        intro p hp
        by_cases h0 : p = []
        · subst h0
          rw [find_fprime_nil, find_fprime_nil]
        · rw [find_fprime_cons fs' p h0, find_fprime_cons fs p h0, hif]
          by_cases hmark : fs.isFile (p ++ needle) = true
          · rw [if_pos hmark, if_pos hmark]
          · rw [if_neg hmark, if_neg hmark]
            exact ih p.dropLast (by rw [List.length_dropLast]; omega)
  exact H p.length p le_rfl

theorem lookup_assemble_framework (sf floc : FsPath) (libs : List FsPath)
    (dt dut : String) (inst ef : FsPath) (envd : List (String × String))
    (cc : String) (pr ac cd : Option FsPath) :
    lookupVal (assembleSettings sf floc libs dt dut inst ef envd cc pr ac cd)
      "framework_path" = some (.path floc) := by
  rcases pr <;> rcases ac <;> rcases cd <;>
    simp [assembleSettings, lookupVal, List.find?]

theorem lookup_assemble_libraries (sf floc : FsPath) (libs : List FsPath)
    (dt dut : String) (inst ef : FsPath) (envd : List (String × String))
    (cc : String) (pr ac cd : Option FsPath) :
    lookupVal (assembleSettings sf floc libs dt dut inst ef envd cc pr ac cd)
      "library_locations" = some (.paths libs) := by
  rcases pr <;> rcases ac <;> rcases cd <;>
    simp [assembleSettings, lookupVal, List.find?]

theorem lookup_assemble_toolchain (sf floc : FsPath) (libs : List FsPath)
    (dt dut : String) (inst ef : FsPath) (envd : List (String × String))
    (cc : String) (pr ac cd : Option FsPath) :
    lookupVal (assembleSettings sf floc libs dt dut inst ef envd cc pr ac cd)
      "default_toolchain" = some (.str dt) := by
  rcases pr <;> rcases ac <;> rcases cd <;>
    simp [assembleSettings, lookupVal, List.find?]

theorem lookup_assemble_ut_toolchain (sf floc : FsPath) (libs : List FsPath)
    (dt dut : String) (inst ef : FsPath) (envd : List (String × String))
    (cc : String) (pr ac cd : Option FsPath) :
    lookupVal (assembleSettings sf floc libs dt dut inst ef envd cc pr ac cd)
      "default_ut_toolchain" = some (.str dut) := by
  rcases pr <;> rcases ac <;> rcases cd <;>
    simp [assembleSettings, lookupVal, List.find?]

theorem lookup_assemble_install (sf floc : FsPath) (libs : List FsPath)
    (dt dut : String) (inst ef : FsPath) (envd : List (String × String))
    (cc : String) (pr ac cd : Option FsPath) :
    lookupVal (assembleSettings sf floc libs dt dut inst ef envd cc pr ac cd)
      "install_dest" = some (.path inst) := by
  rcases pr <;> rcases ac <;> rcases cd <;>
    simp [assembleSettings, lookupVal, List.find?]

theorem lookup_assemble_envfile (sf floc : FsPath) (libs : List FsPath)
    (dt dut : String) (inst ef : FsPath) (envd : List (String × String))
    (cc : String) (pr ac cd : Option FsPath) :
    lookupVal (assembleSettings sf floc libs dt dut inst ef envd cc pr ac cd)
      "environment_file" = some (.path ef) := by
  rcases pr <;> rcases ac <;> rcases cd <;>
    simp [assembleSettings, lookupVal, List.find?]

theorem lookup_assemble_env (sf floc : FsPath) (libs : List FsPath)
    (dt dut : String) (inst ef : FsPath) (envd : List (String × String))
    (cc : String) (pr ac cd : Option FsPath) :
    lookupVal (assembleSettings sf floc libs dt dut inst ef envd cc pr ac cd)
      "environment" = some (.env envd) := by
  rcases pr <;> rcases ac <;> rcases cd <;>
    simp [assembleSettings, lookupVal, List.find?]

theorem lookup_assemble_cookiecutter (sf floc : FsPath) (libs : List FsPath)
    (dt dut : String) (inst ef : FsPath) (envd : List (String × String))
    (cc : String) (pr ac cd : Option FsPath) :
    lookupVal (assembleSettings sf floc libs dt dut inst ef envd cc pr ac cd)
      "component_cookiecutter" = some (.str cc) := by
  rcases pr <;> rcases ac <;> rcases cd <;>
    simp [assembleSettings, lookupVal, List.find?]

theorem lookup_assemble_project_root (sf floc : FsPath) (libs : List FsPath)
    (dt dut : String) (inst ef : FsPath) (envd : List (String × String))
    (cc : String) (pr ac cd : Option FsPath) :
    lookupVal (assembleSettings sf floc libs dt dut inst ef envd cc pr ac cd)
      "project_root" = pr.map (fun p => .path p) := by
  rcases pr <;> rcases ac <;> rcases cd <;>
    simp [assembleSettings, lookupVal, List.find?]

theorem lookup_assemble_ac_constants (sf floc : FsPath) (libs : List FsPath)
    (dt dut : String) (inst ef : FsPath) (envd : List (String × String))
    (cc : String) (pr ac cd : Option FsPath) :
    lookupVal (assembleSettings sf floc libs dt dut inst ef envd cc pr ac cd)
      "ac_constants" = ac.map (fun p => .path p) := by
  rcases pr <;> rcases ac <;> rcases cd <;>
    simp [assembleSettings, lookupVal, List.find?]

theorem lookup_assemble_config_dir (sf floc : FsPath) (libs : List FsPath)
    (dt dut : String) (inst ef : FsPath) (envd : List (String × String))
    (cc : String) (pr ac cd : Option FsPath) :
    lookupVal (assembleSettings sf floc libs dt dut inst ef envd cc pr ac cd)
      "config_dir" = cd.map (fun p => .path p) := by
  rcases pr <;> rcases ac <;> rcases cd <;>
    simp [assembleSettings, lookupVal, List.find?]

end IniSettings

/-- A path component is plain when it is none of the special lexical
components `""`, `"."`, `".."`. -/
def plainComponent (c : String) : Prop := c ≠ "" ∧ c ≠ "." ∧ c ≠ ".."

instance (c : String) : Decidable (plainComponent c) :=
  inferInstanceAs (Decidable (_ ∧ _ ∧ _))

theorem normComponents_plain (l : List String) :
    ∀ acc : FsPath, (∀ c ∈ acc, plainComponent c) →
      ∀ c ∈ normComponents acc l, plainComponent c := by
  induction l with
  | nil => intro acc hacc c hc; exact hacc c hc
  | cons x rest ih =>
      intro acc hacc c hc
      rw [normComponents] at hc
      by_cases hx : x = "" ∨ x = "."
      · rw [if_pos hx] at hc
        exact ih acc hacc c hc
      · rw [if_neg hx] at hc
        by_cases hx2 : x = ".."
        · rw [if_pos hx2] at hc
          refine ih acc.dropLast ?_ c hc
          intro d hd
          exact hacc d ((List.dropLast_sublist acc).subset hd)
        · rw [if_neg hx2] at hc
          refine ih (acc ++ [x]) ?_ c hc
          intro d hd
          rcases List.mem_append.mp hd with hd' | hd'
          · exact hacc d hd'
          · rcases List.mem_singleton.mp hd' with rfl
            push_neg at hx
            exact ⟨hx.1, hx.2, hx2⟩

theorem normComponents_append (xs : List String) :
    ∀ (acc : FsPath) (l : List String), (∀ c ∈ xs, plainComponent c) →
      normComponents acc (xs ++ l) = normComponents (acc ++ xs) l := by
  induction xs with
  | nil => intro acc l _; simp
  | cons x rest ih =>
      intro acc l hxs
      obtain ⟨hx0, hx1, hx2⟩ := hxs x (List.mem_cons_self _ _)
      have hrest : ∀ c ∈ rest, plainComponent c :=
        fun c hc => hxs c (List.mem_cons_of_mem _ hc)
      rw [List.cons_append, normComponents, if_neg (by tauto), if_neg hx2,
        ih (acc ++ [x]) l hrest]
      congr 1
      simp

/-- The canonicalization step as the spec words it (§4.1 Step 4): anchor a
relative path at the settings-file directory, resolve `.` and `..`, make the
result absolute, and ALSO resolve symbolic links.  Symlinks are modelled as
a finite table from link paths to their targets, applied while walking the
components left to right.  This definition follows the spec's words and
exists to be compared against `expandPath`, the normalization the code
actually performs. -/
def canonicalizeSpec (links : List (FsPath × FsPath)) (base : FsPath)
    (raw : String) : FsPath :=
  (expandPath base raw).foldl
    (fun resolved c =>
      match links.find? (fun e => e.1 == resolved ++ [c]) with
      | some e => e.2
      | none => resolved ++ [c]) []

/-! Concrete filesystem states used to instantiate the theorems below. -/

/-- The settings-file path shared by the demo filesystems. -/
def sfDemo : FsPath := ["r", "proj", "settings.ini"]

/-- Settings file declaring `framework_path`, two `library_locations` and a
`config_directory`, all existing; the discovery marker also exists. -/
def fsA : FileSystem where
  pathExists p := ([sfDemo, ["r", "proj", "fw"], ["r", "proj", "l1"],
    ["r", "proj", "l2"], ["r", "proj", "cfgd"]] : List FsPath).contains p
  isFile p := p == (["r", "cmake", "FPrime.cmake"] : FsPath)
  iniEntries p :=
    if p == sfDemo then
      [("fprime", "framework_path", "fw"),
       ("fprime", "library_locations", "l1:l2"),
       ("fprime", "config_directory", "cfgd")]
    else []

/-- Settings file whose `project_root` lists an existing first entry and a
nonexistent second entry. -/
def fsB : FileSystem where
  pathExists p := ([sfDemo, ["r", "proj", "ok"]] : List FsPath).contains p
  isFile p := p == (["r", "cmake", "FPrime.cmake"] : FsPath)
  iniEntries p :=
    if p == sfDemo then [("fprime", "project_root", "ok:bad")] else []

/-- Settings file declaring the option literally named `config_dir` (the
spelling the output mapping uses), with an existing target. -/
def fsC : FileSystem where
  pathExists p := ([sfDemo, ["r", "proj", "cfg"]] : List FsPath).contains p
  isFile p := p == (["r", "cmake", "FPrime.cmake"] : FsPath)
  iniEntries p :=
    if p == sfDemo then [("fprime", "config_dir", "cfg")] else []

/-- A filesystem on which the settings file does not exist (its INI oracle
still reports content, to exhibit that the content is never consulted). -/
def fsD : FileSystem where
  pathExists _ := false
  isFile p := p == (["r", "cmake", "FPrime.cmake"] : FsPath)
  iniEntries _ := [("fprime", "framework_path", "junk")]

/-- A filesystem whose settings file has an `[environment]` section with a
mixed-case key. -/
def fsE : FileSystem where
  pathExists p := p == sfDemo
  isFile _ := false
  iniEntries p :=
    if p == sfDemo then
      [("environment", "Custom_Key", "v"), ("fprime", "a", "b")]
    else []

/-- A filesystem containing nothing at all. -/
def fsW : FileSystem where
  pathExists _ := false
  isFile _ := false
  iniEntries _ := []

/-- Settings file declaring a nonexistent `install_dest` while every other
key is absent. -/
def fsF : FileSystem where
  pathExists p := p == sfDemo
  isFile p := p == (["r", "cmake", "FPrime.cmake"] : FsPath)
  iniEntries p :=
    if p == sfDemo then [("fprime", "install_dest", "../out")] else []

namespace IniSettings

/-- C9: For every starting directory, upward framework discovery checks the
candidate directory for the fixed marker file (`cmake/FPrime.cmake`),
returns the first candidate containing it, otherwise moves to the parent;
the walk visits exactly the `p.length` ancestors of the start (each a
prefix of it), a strictly decreasing chain, so it terminates; if the
filesystem root is reached without finding the marker it fails with
`FprimeLocationUnknownException`. -/
theorem claim_C9 (fs : FileSystem) (p : FsPath) :
    (find_fprime fs p =
      match (ancestorChain p).find? (fun q => fs.isFile (q ++ needle)) with
      | some r => Except.ok r
      | none => Except.error FprimeException.locationUnknown) ∧
    (ancestorChain p).length = p.length ∧
    List.Pairwise (fun a b : FsPath => b.length < a.length)
      (ancestorChain p) ∧
    (∀ q ∈ ancestorChain p, q = p.take q.length) ∧
    ((∀ q ∈ ancestorChain p, fs.isFile (q ++ needle) = false) →
      find_fprime fs p = Except.error FprimeException.locationUnknown) := by
  refine ⟨find_fprime_eq_chain fs p, ancestorChain_length p,
    ancestorChain_strictly_decreasing p, take_of_mem_ancestorChain p, ?_⟩
  intro hall
  rw [find_fprime_eq_chain fs p]
  have hnone : (ancestorChain p).find? (fun q => fs.isFile (q ++ needle))
      = none :=
    List.find?_eq_none.mpr (fun x hx => by simp [hall x hx])
  rw [hnone]

/-- Witness for C9 on a concrete two-component start directory in an empty
filesystem: no candidate has the marker and discovery fails. -/
theorem claim_C9_witness :
    (∀ q ∈ ancestorChain (["r", "proj"] : FsPath),
        fsW.isFile (q ++ needle) = false) ∧
    find_fprime fsW ["r", "proj"] =
      Except.error FprimeException.locationUnknown :=
  ⟨by decide, (claim_C9 fsW ["r", "proj"]).2.2.2.2 (by decide)⟩

/-- C2: For every settings-file path that does not exist on disk (and from
whose directory upward discovery succeeds), `load` prints exactly the
warning line, returns a mapping containing exactly the two keys
`framework_path` (from upward discovery) and `install_dest`
(`<parent>/build-artifacts`), and never consults the parsed INI content of
any file (the result is unchanged under any INI oracle). -/
theorem claim_C2 (fs : FileSystem) (sf : FsPath)
    (hmiss : fs.pathExists sf = false) (floc : FsPath)
    (hdisc : find_fprime fs sf.dropLast = .ok floc) :
    load fs sf = .ok ([warnMsg sf],
      [("framework_path", SettingsValue.path floc),
       ("install_dest",
        SettingsValue.path (sf.dropLast ++ ["build-artifacts"]))]) ∧
    ∀ fs' : FileSystem, fs'.pathExists = fs.pathExists →
      fs'.isFile = fs.isFile → load fs' sf = load fs sf := by
  have key : ∀ g : FileSystem, g.pathExists sf = false →
      find_fprime g sf.dropLast = .ok floc →
      load g sf = .ok ([warnMsg sf],
        [("framework_path", SettingsValue.path floc),
         ("install_dest",
          SettingsValue.path (sf.dropLast ++ ["build-artifacts"]))]) := by
    intro g h1 h2
    rw [load, h1]
    simp only [Bool.not_false, if_true]
    rw [h2]
    simp only [ok_bind]
  refine ⟨key fs hmiss hdisc, ?_⟩
  intro fs' hpe hif
  rw [key fs hmiss hdisc, key fs' (by rw [hpe, hmiss])
    (by rw [find_fprime_congr fs fs' hif]; exact hdisc)]

/-- Witness for C2: the settings file is absent in `fsD`; the marker sits at
`/r`, so the minimal two-key mapping is returned with the warning. -/
theorem claim_C2_witness :
    load fsD sfDemo = .ok ([warnMsg sfDemo],
      [("framework_path", SettingsValue.path ["r"]),
       ("install_dest",
        SettingsValue.path ["r", "proj", "build-artifacts"])]) :=
  (claim_C2 fsD sfDemo rfl ["r"] rfl).1

/-- C1: For every settings file that exists and parses (and whose per-key
reads succeed), if the `[fprime]` section specifies `framework_path` with a
nonempty colon-separated list, the result's `framework_path` is the first
entry, normalized against the settings directory and validated to exist;
if the key is absent, it is the result of upward discovery started from
the settings file's containing directory. -/
theorem claim_C1 (fs : FileSystem) (sf : FsPath)
    (hex : fs.pathExists sf = true)
    (lfp lpr lac lcd lid lef llib : List FsPath) (floc : FsPath)
    (hfp : read_safe_path fs (fs.iniEntries sf) "fprime" "framework_path" sf
      = .ok lfp)
    (hfloc : firstOr lfp (find_fprime fs sf.dropLast) = Except.ok floc)
    (hpr : read_safe_path fs (fs.iniEntries sf) "fprime" "project_root" sf
      = .ok lpr)
    (hac : read_safe_path fs (fs.iniEntries sf) "fprime" "ac_constants" sf
      = .ok lac)
    (hcd : read_safe_path fs (fs.iniEntries sf) "fprime" "config_directory" sf
      = .ok lcd)
    (hid : read_safe_path fs (fs.iniEntries sf) "fprime" "install_dest" sf
      false = .ok lid)
    (hef : read_safe_path fs (fs.iniEntries sf) "fprime" "environment_file" sf
      = .ok lef)
    (hlib : read_safe_path fs (fs.iniEntries sf) "fprime" "library_locations"
      sf = .ok llib) :
    (∃ m, load fs sf = Except.ok ([], m) ∧
      lookupVal m "framework_path" = some (SettingsValue.path floc)) ∧
    (∀ v e rest,
      iniGet pyLower (fs.iniEntries sf) "fprime" "framework_path" = some v →
      pathEntries v = e :: rest →
      floc = expandPath sf.dropLast e ∧ fs.pathExists floc = true) ∧
    (iniGet pyLower (fs.iniEntries sf) "fprime" "framework_path" = none →
      find_fprime fs sf.dropLast = Except.ok floc) := by
  obtain ⟨hall, hlfp⟩ :=
    (read_safe_path_ok_iff fs (fs.iniEntries sf) "fprime" "framework_path"
      sf lfp).mp hfp
  refine ⟨⟨_, load_ok_build fs sf hex lfp lpr lac lcd lid lef llib floc hfp
      hfloc hpr hac hcd hid hef hlib,
      lookup_assemble_framework _ _ _ _ _ _ _ _ _ _ _ _⟩, ?_, ?_⟩
  · intro v e rest hv hpe
    have hd : iniGetD (fs.iniEntries sf) "fprime" "framework_path" "" = v :=
      by rw [iniGetD, hv]; rfl
    rw [hd, hpe] at hlfp
    have hmem : e ∈ pathEntries (iniGetD (fs.iniEntries sf) "fprime"
        "framework_path" "") := by
      rw [hd, hpe]; exact List.mem_cons_self _ _
    have hfe : floc = expandPath sf.dropLast e := by
      subst hlfp
      exact (Except.ok.inj hfloc).symm
    exact ⟨hfe, hfe ▸ hall e hmem⟩
  · intro habs
    have h0 := read_safe_path_absent fs (fs.iniEntries sf) "fprime"
      "framework_path" sf true habs
    rw [hfp] at h0
    have : lfp = [] := Except.ok.inj h0
    subst this
    exact hfloc

/-- Witness for C1 on `fsA`: `framework_path = fw` resolves to
`/r/proj/fw`, which the result's `framework_path` equals. -/
theorem claim_C1_witness :
    ∃ m, load fsA sfDemo = Except.ok ([], m) ∧
      lookupVal m "framework_path" =
        some (SettingsValue.path ["r", "proj", "fw"]) :=
  (claim_C1 fsA sfDemo rfl [["r", "proj", "fw"]] [] [] [["r", "proj", "cfgd"]]
    [] [] [["r", "proj", "l1"], ["r", "proj", "l2"]] ["r", "proj", "fw"]
    rfl rfl rfl rfl rfl rfl rfl rfl).1

/-- C5: For every settings file specifying `library_locations` as a
colon-separated list, the result's `library_locations` contains ALL
(nonempty) entries, in their original order, each normalized and
independently validated to exist; when the key is absent the result is the
empty sequence. -/
theorem claim_C5 (fs : FileSystem) (sf : FsPath)
    (hex : fs.pathExists sf = true)
    (lfp lpr lac lcd lid lef llib : List FsPath) (floc : FsPath)
    (hfp : read_safe_path fs (fs.iniEntries sf) "fprime" "framework_path" sf
      = .ok lfp)
    (hfloc : firstOr lfp (find_fprime fs sf.dropLast) = Except.ok floc)
    (hpr : read_safe_path fs (fs.iniEntries sf) "fprime" "project_root" sf
      = .ok lpr)
    (hac : read_safe_path fs (fs.iniEntries sf) "fprime" "ac_constants" sf
      = .ok lac)
    (hcd : read_safe_path fs (fs.iniEntries sf) "fprime" "config_directory" sf
      = .ok lcd)
    (hid : read_safe_path fs (fs.iniEntries sf) "fprime" "install_dest" sf
      false = .ok lid)
    (hef : read_safe_path fs (fs.iniEntries sf) "fprime" "environment_file" sf
      = .ok lef)
    (hlib : read_safe_path fs (fs.iniEntries sf) "fprime" "library_locations"
      sf = .ok llib) :
    ∃ m, load fs sf = Except.ok ([], m) ∧
      lookupVal m "library_locations" = some (SettingsValue.paths llib) ∧
      llib = (pathEntries (iniGetD (fs.iniEntries sf) "fprime"
        "library_locations" "")).map (expandPath sf.dropLast) ∧
      (∀ q ∈ llib, fs.pathExists q = true) ∧
      (iniGet pyLower (fs.iniEntries sf) "fprime" "library_locations" = none →
        llib = []) := by
  obtain ⟨hall, hllib⟩ :=
    (read_safe_path_ok_iff fs (fs.iniEntries sf) "fprime" "library_locations"
      sf llib).mp hlib
  refine ⟨_, load_ok_build fs sf hex lfp lpr lac lcd lid lef llib floc hfp
      hfloc hpr hac hcd hid hef hlib,
    lookup_assemble_libraries _ _ _ _ _ _ _ _ _ _ _ _, hllib, ?_, ?_⟩
  · intro q hq
    rw [hllib] at hq
    obtain ⟨p, hp, rfl⟩ := List.mem_map.mp hq
    exact hall p hp
  · intro habs
    have h0 := read_safe_path_absent fs (fs.iniEntries sf) "fprime"
      "library_locations" sf true habs
    rw [hlib] at h0
    exact Except.ok.inj h0

/-- Witness for C5 on `fsA`: `library_locations = l1:l2` resolves to both
entries, in order. -/
theorem claim_C5_witness :
    ∃ m, load fsA sfDemo = Except.ok ([], m) ∧
      lookupVal m "library_locations" =
        some (SettingsValue.paths [["r", "proj", "l1"], ["r", "proj", "l2"]])
        ∧
      ([["r", "proj", "l1"], ["r", "proj", "l2"]] : List FsPath) =
        (pathEntries (iniGetD (fsA.iniEntries sfDemo) "fprime"
          "library_locations" "")).map (expandPath sfDemo.dropLast) ∧
      (∀ q ∈ ([["r", "proj", "l1"], ["r", "proj", "l2"]] : List FsPath),
        fsA.pathExists q = true) ∧
      (iniGet pyLower (fsA.iniEntries sfDemo) "fprime" "library_locations"
        = none → ([["r", "proj", "l1"], ["r", "proj", "l2"]] : List FsPath)
          = []) :=
  claim_C5 fsA sfDemo rfl [["r", "proj", "fw"]] [] [] [["r", "proj", "cfgd"]]
    [] [] [["r", "proj", "l1"], ["r", "proj", "l2"]] ["r", "proj", "fw"]
    rfl rfl rfl rfl rfl rfl rfl rfl

/-- C6: For every valid settings file omitting the optional keys
`default_toolchain`, `default_ut_toolchain`, `component_cookiecutter` and
`install_dest`, the result contains `default_toolchain = "native"`,
`default_ut_toolchain = "native"`, `component_cookiecutter = "default"` and
`install_dest = <settings_dir>/build-artifacts`. -/
theorem claim_C6 (fs : FileSystem) (sf : FsPath)
    (hex : fs.pathExists sf = true)
    (lfp lpr lac lcd lid lef llib : List FsPath) (floc : FsPath)
    (hfp : read_safe_path fs (fs.iniEntries sf) "fprime" "framework_path" sf
      = .ok lfp)
    (hfloc : firstOr lfp (find_fprime fs sf.dropLast) = Except.ok floc)
    (hpr : read_safe_path fs (fs.iniEntries sf) "fprime" "project_root" sf
      = .ok lpr)
    (hac : read_safe_path fs (fs.iniEntries sf) "fprime" "ac_constants" sf
      = .ok lac)
    (hcd : read_safe_path fs (fs.iniEntries sf) "fprime" "config_directory" sf
      = .ok lcd)
    (hid : read_safe_path fs (fs.iniEntries sf) "fprime" "install_dest" sf
      false = .ok lid)
    (hef : read_safe_path fs (fs.iniEntries sf) "fprime" "environment_file" sf
      = .ok lef)
    (hlib : read_safe_path fs (fs.iniEntries sf) "fprime" "library_locations"
      sf = .ok llib)
    (hdt : iniGet pyLower (fs.iniEntries sf) "fprime" "default_toolchain"
      = none)
    (hdut : iniGet pyLower (fs.iniEntries sf) "fprime" "default_ut_toolchain"
      = none)
    (hcc : iniGet pyLower (fs.iniEntries sf) "fprime" "component_cookiecutter"
      = none)
    (hinst : iniGet pyLower (fs.iniEntries sf) "fprime" "install_dest"
      = none) :
    ∃ m, load fs sf = Except.ok ([], m) ∧
      lookupVal m "default_toolchain" = some (SettingsValue.str "native") ∧
      lookupVal m "default_ut_toolchain" = some (SettingsValue.str "native") ∧
      lookupVal m "component_cookiecutter" =
        some (SettingsValue.str "default") ∧
      lookupVal m "install_dest" =
        some (SettingsValue.path (sf.dropLast ++ ["build-artifacts"])) := by
  have hlid : lid = [] := by
    have h0 := read_safe_path_absent fs (fs.iniEntries sf) "fprime"
      "install_dest" sf false hinst
    rw [hid] at h0
    exact Except.ok.inj h0
  have hdt' : iniGetD (fs.iniEntries sf) "fprime" "default_toolchain"
      "native" = "native" := by rw [iniGetD, hdt]; rfl
  have hdut' : iniGetD (fs.iniEntries sf) "fprime" "default_ut_toolchain"
      "native" = "native" := by rw [iniGetD, hdut]; rfl
  have hcc' : iniGetD (fs.iniEntries sf) "fprime" "component_cookiecutter"
      "default" = "default" := by rw [iniGetD, hcc]; rfl
  refine ⟨_, load_ok_build fs sf hex lfp lpr lac lcd lid lef llib floc hfp
      hfloc hpr hac hcd hid hef hlib, ?_, ?_, ?_, ?_⟩
  · rw [lookup_assemble_toolchain, hdt']
  · rw [lookup_assemble_ut_toolchain, hdut']
  · rw [lookup_assemble_cookiecutter, hcc']
  · rw [lookup_assemble_install, hlid]
    rfl

/-- Witness for C6 on `fsA`: the four keys are absent and the defaults
appear in the result. -/
theorem claim_C6_witness :
    ∃ m, load fsA sfDemo = Except.ok ([], m) ∧
      lookupVal m "default_toolchain" = some (SettingsValue.str "native") ∧
      lookupVal m "default_ut_toolchain" = some (SettingsValue.str "native") ∧
      lookupVal m "component_cookiecutter" =
        some (SettingsValue.str "default") ∧
      lookupVal m "install_dest" =
        some (SettingsValue.path (sfDemo.dropLast ++ ["build-artifacts"])) :=
  claim_C6 fsA sfDemo rfl [["r", "proj", "fw"]] [] [] [["r", "proj", "cfgd"]]
    [] [] [["r", "proj", "l1"], ["r", "proj", "l2"]] ["r", "proj", "fw"]
    rfl rfl rfl rfl rfl rfl rfl rfl rfl rfl rfl rfl

/-- C7 as stated is false for `config_dir`: in `fsC` the settings file
declares the option literally named `config_dir` (with an existing target),
yet the result mapping contains no `config_dir` key — the loader reads the
option `config_directory` instead. -/
theorem counterexample_C7 :
    iniGet pyLower (fsC.iniEntries sfDemo) "fprime" "config_dir"
      = some "cfg" ∧
    fsC.pathExists (expandPath sfDemo.dropLast "cfg") = true ∧
    (load fsC sfDemo).map (fun r => lookupVal r.2 "config_dir")
      = Except.ok none :=
  ⟨rfl, rfl, rfl⟩

/-- C7 (amended): `project_root` and `ac_constants` appear in the result
exactly when the file specifies an option of the same name with a nonempty
path list, with the validated absolute first entry as value; `config_dir`
appears in the result exactly when the file specifies the option named
`config_directory` (not `config_dir`), likewise validated; each is omitted
entirely when its option is absent. -/
theorem claim_C7 (fs : FileSystem) (sf : FsPath)
    (hex : fs.pathExists sf = true)
    (lfp lpr lac lcd lid lef llib : List FsPath) (floc : FsPath)
    (hfp : read_safe_path fs (fs.iniEntries sf) "fprime" "framework_path" sf
      = .ok lfp)
    (hfloc : firstOr lfp (find_fprime fs sf.dropLast) = Except.ok floc)
    (hpr : read_safe_path fs (fs.iniEntries sf) "fprime" "project_root" sf
      = .ok lpr)
    (hac : read_safe_path fs (fs.iniEntries sf) "fprime" "ac_constants" sf
      = .ok lac)
    (hcd : read_safe_path fs (fs.iniEntries sf) "fprime" "config_directory" sf
      = .ok lcd)
    (hid : read_safe_path fs (fs.iniEntries sf) "fprime" "install_dest" sf
      false = .ok lid)
    (hef : read_safe_path fs (fs.iniEntries sf) "fprime" "environment_file" sf
      = .ok lef)
    (hlib : read_safe_path fs (fs.iniEntries sf) "fprime" "library_locations"
      sf = .ok llib) :
    ∃ m, load fs sf = Except.ok ([], m) ∧
      lookupVal m "project_root" =
        lpr.head?.map (fun p => SettingsValue.path p) ∧
      lookupVal m "ac_constants" =
        lac.head?.map (fun p => SettingsValue.path p) ∧
      lookupVal m "config_dir" =
        lcd.head?.map (fun p => SettingsValue.path p) ∧
      lpr = (pathEntries (iniGetD (fs.iniEntries sf) "fprime" "project_root"
        "")).map (expandPath sf.dropLast) ∧
      lac = (pathEntries (iniGetD (fs.iniEntries sf) "fprime" "ac_constants"
        "")).map (expandPath sf.dropLast) ∧
      lcd = (pathEntries (iniGetD (fs.iniEntries sf) "fprime"
        "config_directory" "")).map (expandPath sf.dropLast) ∧
      (∀ q ∈ lpr, fs.pathExists q = true) ∧
      (∀ q ∈ lac, fs.pathExists q = true) ∧
      (∀ q ∈ lcd, fs.pathExists q = true) ∧
      (iniGet pyLower (fs.iniEntries sf) "fprime" "project_root" = none →
        lookupVal m "project_root" = none) ∧
      (iniGet pyLower (fs.iniEntries sf) "fprime" "ac_constants" = none →
        lookupVal m "ac_constants" = none) ∧
      (iniGet pyLower (fs.iniEntries sf) "fprime" "config_directory" = none →
        lookupVal m "config_dir" = none) := by
  obtain ⟨hallpr, hlpr⟩ :=
    (read_safe_path_ok_iff fs (fs.iniEntries sf) "fprime" "project_root"
      sf lpr).mp hpr
  obtain ⟨hallac, hlac⟩ :=
    (read_safe_path_ok_iff fs (fs.iniEntries sf) "fprime" "ac_constants"
      sf lac).mp hac
  obtain ⟨hallcd, hlcd⟩ :=
    (read_safe_path_ok_iff fs (fs.iniEntries sf) "fprime" "config_directory"
      sf lcd).mp hcd
  refine ⟨_, load_ok_build fs sf hex lfp lpr lac lcd lid lef llib floc hfp
      hfloc hpr hac hcd hid hef hlib,
    lookup_assemble_project_root _ _ _ _ _ _ _ _ _ _ _ _,
    lookup_assemble_ac_constants _ _ _ _ _ _ _ _ _ _ _ _,
    lookup_assemble_config_dir _ _ _ _ _ _ _ _ _ _ _ _,
    hlpr, hlac, hlcd, ?_, ?_, ?_, ?_, ?_, ?_⟩
  · intro q hq
    rw [hlpr] at hq
    obtain ⟨p, hp, rfl⟩ := List.mem_map.mp hq
    exact hallpr p hp
  · intro q hq
    rw [hlac] at hq
    obtain ⟨p, hp, rfl⟩ := List.mem_map.mp hq
    exact hallac p hp
  · intro q hq
    rw [hlcd] at hq
    obtain ⟨p, hp, rfl⟩ := List.mem_map.mp hq
    exact hallcd p hp
  · intro habs
    have h0 := read_safe_path_absent fs (fs.iniEntries sf) "fprime"
      "project_root" sf true habs
    rw [hpr] at h0
    rw [lookup_assemble_project_root, Except.ok.inj h0]
    rfl
  · intro habs
    have h0 := read_safe_path_absent fs (fs.iniEntries sf) "fprime"
      "ac_constants" sf true habs
    rw [hac] at h0
    rw [lookup_assemble_ac_constants, Except.ok.inj h0]
    rfl
  · intro habs
    have h0 := read_safe_path_absent fs (fs.iniEntries sf) "fprime"
      "config_directory" sf true habs
    rw [hcd] at h0
    rw [lookup_assemble_config_dir, Except.ok.inj h0]
    rfl

/-- Witness for the amended C7 on `fsA`: `config_directory = cfgd` yields a
`config_dir` entry while `project_root` and `ac_constants` are omitted. -/
theorem claim_C7_witness :
    ∃ m, load fsA sfDemo = Except.ok ([], m) ∧
      lookupVal m "project_root" =
        (List.head? ([] : List FsPath)).map (fun p => SettingsValue.path p) ∧
      lookupVal m "ac_constants" =
        (List.head? ([] : List FsPath)).map (fun p => SettingsValue.path p) ∧
      lookupVal m "config_dir" =
        (List.head? [(["r", "proj", "cfgd"] : FsPath)]).map
          (fun p => SettingsValue.path p) ∧
      ([] : List FsPath) = (pathEntries (iniGetD (fsA.iniEntries sfDemo)
        "fprime" "project_root" "")).map (expandPath sfDemo.dropLast) ∧
      ([] : List FsPath) = (pathEntries (iniGetD (fsA.iniEntries sfDemo)
        "fprime" "ac_constants" "")).map (expandPath sfDemo.dropLast) ∧
      [(["r", "proj", "cfgd"] : FsPath)] =
        (pathEntries (iniGetD (fsA.iniEntries sfDemo) "fprime"
          "config_directory" "")).map (expandPath sfDemo.dropLast) ∧
      (∀ q ∈ ([] : List FsPath), fsA.pathExists q = true) ∧
      (∀ q ∈ ([] : List FsPath), fsA.pathExists q = true) ∧
      (∀ q ∈ [(["r", "proj", "cfgd"] : FsPath)],
        fsA.pathExists q = true) ∧
      (iniGet pyLower (fsA.iniEntries sfDemo) "fprime" "project_root" = none
        → lookupVal m "project_root" = none) ∧
      (iniGet pyLower (fsA.iniEntries sfDemo) "fprime" "ac_constants" = none
        → lookupVal m "ac_constants" = none) ∧
      (iniGet pyLower (fsA.iniEntries sfDemo) "fprime" "config_directory"
        = none → lookupVal m "config_dir" = none) :=
  claim_C7 fsA sfDemo rfl [["r", "proj", "fw"]] [] [] [["r", "proj", "cfgd"]]
    [] [] [["r", "proj", "l1"], ["r", "proj", "l2"]] ["r", "proj", "fw"]
    rfl rfl rfl rfl rfl rfl rfl rfl

/-- C3: For every path-valued key declared in the settings file whose
target does not exist (except `install_dest`), resolution fails with a
`FprimeSettingsException` whose message names the section `fprime`, an
offending key and the settings file; `install_dest` is accepted and
returned even when its target does not exist (no existence hypothesis
appears in the second part). -/
theorem claim_C3 (fs : FileSystem) (sf : FsPath)
    (hex : fs.pathExists sf = true)
    (hfw : ∃ r, find_fprime fs sf.dropLast = Except.ok r) :
    (∀ k ∈ checkedKeys,
      ∀ p ∈ pathEntries (iniGetD (fs.iniEntries sf) "fprime" k ""),
      fs.pathExists (expandPath sf.dropLast p) = false →
      ∃ q k', k' ∈ checkedKeys ∧
        q ∈ pathEntries (iniGetD (fs.iniEntries sf) "fprime" k' "") ∧
        fs.pathExists (expandPath sf.dropLast q) = false ∧
        load fs sf =
          Except.error (.settingsException q "fprime" k' sf) ∧
        exceptionMessage (.settingsException q "fprime" k' sf) =
          "Nonexistent path '" ++ q ++ "' found in section '" ++ "fprime" ++
            "' option '" ++ k' ++ "' of file '" ++ renderPath sf ++ "'") ∧
    (∀ lfp lpr lac lcd lef llib floc,
      read_safe_path fs (fs.iniEntries sf) "fprime" "framework_path" sf
        = .ok lfp →
      firstOr lfp (find_fprime fs sf.dropLast) = Except.ok floc →
      read_safe_path fs (fs.iniEntries sf) "fprime" "project_root" sf
        = .ok lpr →
      read_safe_path fs (fs.iniEntries sf) "fprime" "ac_constants" sf
        = .ok lac →
      read_safe_path fs (fs.iniEntries sf) "fprime" "config_directory" sf
        = .ok lcd →
      read_safe_path fs (fs.iniEntries sf) "fprime" "environment_file" sf
        = .ok lef →
      read_safe_path fs (fs.iniEntries sf) "fprime" "library_locations" sf
        = .ok llib →
      ∀ v e rest,
        iniGet pyLower (fs.iniEntries sf) "fprime" "install_dest" = some v →
        pathEntries v = e :: rest →
        ∃ m, load fs sf = Except.ok ([], m) ∧
          lookupVal m "install_dest" =
            some (SettingsValue.path (expandPath sf.dropLast e))) := by
  constructor
  · intro k hk p hp hbad
    obtain ⟨q, k', hk', hq, hqbad, hload⟩ :=
      load_error_of_bad_entry fs sf hex hfw k hk p hp (by simp [hbad])
    exact ⟨q, k', hk', hq, by simp [Bool.not_eq_true] at hqbad; exact hqbad,
      hload, rfl⟩
  · intro lfp lpr lac lcd lef llib floc hfp hfloc hpr hac hcd hef hlib
      v e rest hv hpe
    have hd : iniGetD (fs.iniEntries sf) "fprime" "install_dest" "" = v := by
      rw [iniGetD, hv]; rfl
    have hid := read_safe_path_noCheck fs (fs.iniEntries sf) "fprime"
      "install_dest" sf
    refine ⟨_, load_ok_build fs sf hex lfp lpr lac lcd _ lef llib floc hfp
        hfloc hpr hac hcd hid hef hlib, ?_⟩
    rw [lookup_assemble_install]
    rw [hd, hpe]
    rfl

/-- Witness for C3: in `fsB` the `project_root` entry `bad` is missing, so
`load` raises the settings exception; in `fsF` the declared `install_dest`
`../out` does not exist, yet `load` succeeds and returns it. -/
theorem claim_C3_witness :
    (∃ q k', k' ∈ checkedKeys ∧
      q ∈ pathEntries (iniGetD (fsB.iniEntries sfDemo) "fprime" k' "") ∧
      fsB.pathExists (expandPath sfDemo.dropLast q) = false ∧
      load fsB sfDemo =
        Except.error (.settingsException q "fprime" k' sfDemo) ∧
      exceptionMessage (.settingsException q "fprime" k' sfDemo) =
        "Nonexistent path '" ++ q ++ "' found in section '" ++ "fprime" ++
          "' option '" ++ k' ++ "' of file '" ++ renderPath sfDemo ++ "'") ∧
    fsF.pathExists (expandPath sfDemo.dropLast "../out") = false ∧
    (∃ m, load fsF sfDemo = Except.ok ([], m) ∧
      lookupVal m "install_dest" =
        some (SettingsValue.path (expandPath sfDemo.dropLast "../out"))) :=
  ⟨(claim_C3 fsB sfDemo rfl ⟨["r"], rfl⟩).1 "project_root" (by decide)
      "bad" (by decide) rfl,
   rfl,
   (claim_C3 fsF sfDemo rfl ⟨["r"], rfl⟩).2 [] [] [] [] [] [] ["r"]
      rfl rfl rfl rfl rfl rfl rfl "../out" "../out" [] rfl rfl⟩

/-- C10: For every existence-checked single-path key (`framework_path`,
`project_root`, `ac_constants`, `config_directory` — the file spelling of
`config_dir` — and `environment_file`), every entry of its colon-separated
list is validated: `read_safe_path` raises the settings exception when ANY
nonempty entry is nonexistent, including entries after the first that are
otherwise discarded from the result, and `load` then fails with a settings
exception as well. -/
theorem claim_C10 (fs : FileSystem) (sf : FsPath)
    (hex : fs.pathExists sf = true)
    (hfw : ∃ r, find_fprime fs sf.dropLast = Except.ok r)
    (k : String)
    (hk : k ∈ (["framework_path", "project_root", "ac_constants",
      "config_directory", "environment_file"] : List String))
    (p : String)
    (hp : p ∈ pathEntries (iniGetD (fs.iniEntries sf) "fprime" k ""))
    (hbad : fs.pathExists (expandPath sf.dropLast p) = false) :
    (∃ q ∈ pathEntries (iniGetD (fs.iniEntries sf) "fprime" k ""),
      fs.pathExists (expandPath sf.dropLast q) = false ∧
      read_safe_path fs (fs.iniEntries sf) "fprime" k sf =
        Except.error (.settingsException q "fprime" k sf)) ∧
    (∃ q k', k' ∈ checkedKeys ∧
      q ∈ pathEntries (iniGetD (fs.iniEntries sf) "fprime" k' "") ∧
      fs.pathExists (expandPath sf.dropLast q) = false ∧
      load fs sf = Except.error (.settingsException q "fprime" k' sf)) := by
  have hk6 : k ∈ checkedKeys := by
    simp only [List.mem_cons, List.not_mem_nil, or_false] at hk
    rcases hk with rfl | rfl | rfl | rfl | rfl <;> simp [checkedKeys]
  constructor
  · obtain ⟨q, hq, hqbad, hread⟩ := read_safe_path_error_of_bad fs
      (fs.iniEntries sf) "fprime" k sf p hp (by simp [hbad])
    exact ⟨q, hq, by simp [Bool.not_eq_true] at hqbad; exact hqbad, hread⟩
  · obtain ⟨q, k', hk', hq, hqbad, hload⟩ :=
      load_error_of_bad_entry fs sf hex hfw k hk6 p hp (by simp [hbad])
    exact ⟨q, k', hk', hq, by simp [Bool.not_eq_true] at hqbad; exact hqbad,
      hload⟩

/-- Witness for C10 on `fsB`: `project_root = ok:bad` — the first entry
exists and would be the returned value; the second entry `bad` is discarded
from the result yet still validated, and its absence makes both the read
and the whole `load` fail. -/
theorem claim_C10_witness :
    fsB.pathExists (expandPath sfDemo.dropLast "ok") = true ∧
    ((∃ q ∈ pathEntries (iniGetD (fsB.iniEntries sfDemo) "fprime"
        "project_root" ""),
      fsB.pathExists (expandPath sfDemo.dropLast q) = false ∧
      read_safe_path fsB (fsB.iniEntries sfDemo) "fprime" "project_root"
        sfDemo = Except.error (.settingsException q "fprime" "project_root"
          sfDemo)) ∧
    (∃ q k', k' ∈ checkedKeys ∧
      q ∈ pathEntries (iniGetD (fsB.iniEntries sfDemo) "fprime" k' "") ∧
      fsB.pathExists (expandPath sfDemo.dropLast q) = false ∧
      load fsB sfDemo =
        Except.error (.settingsException q "fprime" k' sfDemo))) :=
  ⟨rfl, claim_C10 fsB sfDemo rfl ⟨["r"], rfl⟩ "project_root" (by decide)
    "bad" (by decide) rfl⟩

/-- C4 as stated is false: the normalization is purely lexical and does not
resolve symbolic links.  With `/b/s` a symlink to `/t`, the code expands
the relative entry `s/x` (from base `/b`) to `/b/s/x`, while the spec's
canonicalization (which resolves symlinks) yields `/t/x`. -/
theorem counterexample_C4 :
    expandPath ["b"] "s/x" = ["b", "s", "x"] ∧
    canonicalizeSpec [(["b", "s"], ["t"])] ["b"] "s/x" = ["t", "x"] ∧
    expandPath ["b"] "s/x" ≠ canonicalizeSpec [(["b", "s"], ["t"])] ["b"]
      "s/x" :=
  ⟨rfl, rfl, by decide⟩

/-- C4 (amended): every path-valued entry is normalized before existence
validation by interpreting a relative path relative to the settings file's
directory and then canonicalizing LEXICALLY: `.` and `..` components and
empty segments are resolved and the result is absolute, but symbolic links
are NOT resolved. -/
theorem claim_C4 (base : FsPath) (raw : String)
    (hbase : ∀ c ∈ base, plainComponent c) :
    (isAbsolute raw = false →
      expandPath base raw = normComponents base (splitPath raw)) ∧
    (∀ c ∈ expandPath base raw, plainComponent c) := by
  refine ⟨?_, ?_⟩
  · intro hrel
    rw [expandPath, if_neg (by simp [hrel])]
    have h := normComponents_append base [] (splitPath raw) hbase
    simpa using h
  · by_cases habs : isAbsolute raw = true
    · rw [expandPath, if_pos habs]
      exact normComponents_plain _ []
        (fun c hc => absurd hc (List.not_mem_nil c))
    · rw [expandPath, if_neg habs]
      exact normComponents_plain _ []
        (fun c hc => absurd hc (List.not_mem_nil c))

/-- Witness for the amended C4 at base `/r/proj` and raw entry `../x`:
the expansion starts from the settings directory and the result has no
special components left. -/
theorem claim_C4_witness :
    (isAbsolute "../x" = false →
      expandPath ["r", "proj"] "../x" =
        normComponents ["r", "proj"] (splitPath "../x")) ∧
    (∀ c ∈ expandPath ["r", "proj"] "../x", plainComponent c) :=
  claim_C4 ["r", "proj"] "../x" (by decide)

/-- C8: `load_environment` reads all key/value pairs of the `[environment]`
section with keys preserved verbatim (case-sensitively) — a pair belongs to
the result exactly when the file has that entry, with the key unchanged —
and when the section is absent the result is the empty mapping with no
error; root-section lookups, by contrast, match keys case-insensitively. -/
theorem claim_C8 (fs : FileSystem) (p : FsPath) :
    ((∀ e ∈ fs.iniEntries p, e.1 ≠ "environment") →
      load_environment fs p = []) ∧
    (∀ k v, (k, v) ∈ load_environment fs p ↔
      ("environment", k, v) ∈ fs.iniEntries p) ∧
    iniGet pyLower [("fprime", "Custom_Key", "v")] "fprime" "custom_key"
      = some "v" := by
  refine ⟨?_, ?_, rfl⟩
  · intro hall
    rw [load_environment]
    have hfil : (fs.iniEntries p).filter (fun e => e.1 = "environment")
        = [] := by
      rw [List.filter_eq_nil_iff]
      intro e he
      simp [hall e he]
    rw [hfil]
    rfl
  · intro k v
    rw [load_environment]
    constructor
    · intro hm
      obtain ⟨e, he, heq⟩ := List.mem_map.mp hm
      obtain ⟨he1, he2⟩ := List.mem_filter.mp he
      obtain ⟨s, k', v'⟩ := e
      have hs : s = "environment" := by simpa using he2
      cases heq
      rw [hs] at he1
      exact he1
    · intro hm
      exact List.mem_map.mpr
        ⟨("environment", k, v), List.mem_filter.mpr ⟨hm, by simp⟩, rfl⟩

/-- Witness for C8 on `fsE` (mixed-case key `Custom_Key` preserved
verbatim) and on the empty filesystem `fsW` (missing section yields the
empty mapping). -/
theorem claim_C8_witness :
    load_environment fsE sfDemo = [("Custom_Key", "v")] ∧
    (("Custom_Key", "v") ∈ load_environment fsE sfDemo ↔
      ("environment", "Custom_Key", "v") ∈ fsE.iniEntries sfDemo) ∧
    load_environment fsW sfDemo = [] :=
  ⟨rfl, (claim_C8 fsE sfDemo).2.1 "Custom_Key" "v",
    (claim_C8 fsW sfDemo).1 (by decide)⟩

end IniSettings

end FprimeSettings
